import Mathlib

/-!
Verification of the hybrid genetic-algorithm task-scheduling engine.

The development shallowly embeds the Python sources (ga_fitness.py,
ga_mutation.py, ga_crossover.py, ga_local_search.py,
ga_simulated_annealing.py, ga_island.py, ga_main.py).  Conventions:

* task identifiers, student identifiers and skill names are natural numbers;
* Python floats become rationals;
* Python dicts become association lists, looked up with List.lookup
  (dict-key uniqueness holds for real dicts, so ordering questions never
  arise on reachable inputs);
* a raised Python exception (KeyError, ZeroDivisionError, IndexError) is
  modelled by an Option-typed result being none;
* float infinity is the top element of WithTop the rationals;
* every ambient random draw becomes an explicit oracle argument, so that a
  theorem quantified over all oracles covers every randomized execution.
-/

set_option maxRecDepth 4000

namespace GASched

/-- Fitness values: a rational cost, with the top element standing for the
float infinity that marks invalid or degenerate solutions. -/
abbrev Fitness : Type := WithTop ℚ

/-- Task record as read from the task table: estimated_time (duration),
dependency identifiers, and skill requirements (skill name to level). -/
structure Task where
  estimated_time : ℚ
  dependencies : List ℕ
  skill_requirements : List (ℕ × ℚ)
deriving DecidableEq

/-- Student (worker) record: skill map from skill name to level. -/
structure Student where
  skills : List (ℕ × ℚ)
deriving DecidableEq

/-- One problem instance: the task table and the student table. -/
structure Problem where
  tasks : List (ℕ × Task)
  students : List (ℕ × Student)
deriving DecidableEq

/-- An assignment triple (task_id, student_id, start_time). -/
abbrev Assignment : Type := ℕ × ℕ × ℚ

/-- A chromosome: an ordered sequence of assignments. -/
abbrev Solution : Type := List Assignment

/-- Maximum of a list of rationals (Python max over dict values; the list is
nonempty whenever the code evaluates it, the empty default is never used on
reachable paths). -/
def listMaxQ : List ℚ → ℚ
  | [] => 0
  | x :: xs => xs.foldl max x

/-- Minimum of a list of rationals, analogous to listMaxQ. -/
def listMinQ : List ℚ → ℚ
  | [] => 0
  | x :: xs => xs.foldl min x

/-- Sum of all task durations, from ga_fitness.py line 20. -/
def totalTaskDuration (P : Problem) : ℚ :=
  (P.tasks.map (fun p => p.2.estimated_time)).sum

/-- The dict write completion_times[task_id] overwrites earlier writes, so a
key holds the data of the last assignment in the solution bearing it. -/
def lastAssignment (sol : Solution) (t : ℕ) : Option Assignment :=
  sol.reverse.find? (fun a => a.1 == t)

/-- Entry of the start_times dict built in the first pass of
calculate_fitness (last write wins). -/
def startTimeOf (sol : Solution) (t : ℕ) : Option ℚ :=
  (lastAssignment sol t).map (fun a => a.2.2)

/-- Entry of the completion_times dict: start time plus task duration. -/
def completionTimeOf (P : Problem) (sol : Solution) (t : ℕ) : Option ℚ :=
  (lastAssignment sol t).bind (fun a =>
    (P.tasks.lookup t).map (fun task => a.2.2 + task.estimated_time))

/-- Keys of the completion_times dict: the distinct task ids of the
solution. -/
def distinctTaskIds (sol : Solution) : List ℕ :=
  (sol.map (fun a => a.1)).dedup

/-- Values of the completion_times dict. -/
def completionValues (P : Problem) (sol : Solution) : List ℚ :=
  (distinctTaskIds sol).filterMap (completionTimeOf P sol)

/-- Values of the start_times dict. -/
def startValues (sol : Solution) : List ℚ :=
  (distinctTaskIds sol).filterMap (startTimeOf sol)

/-- Inner loop of the dependency penalty (ga_fitness.py lines 47-52) for one
task t: iterate over its dependency list, returning some none on the early
return float('inf') when a dependency has no completion entry, none when
start_times[t] itself is missing (a KeyError), and some (some acc) with the
accumulated penalty otherwise. -/
def depPenaltyDeps (P : Problem) (sol : Solution) (D : ℚ) (t : ℕ) :
    List ℕ → ℚ → Option (Option ℚ)
  | [], acc => some (some acc)
  | d :: rest, acc =>
    match completionTimeOf P sol d with
    | none => some none
    | some cd =>
      match startTimeOf sol t with
      | none => none
      | some st =>
        depPenaltyDeps P sol D t rest
          (if st < cd then acc + 300 * ((cd - st) / D) else acc)

/-- Outer loop of the dependency penalty over the task table. -/
def depPenaltyTasks (P : Problem) (sol : Solution) (D : ℚ) :
    List (ℕ × Task) → ℚ → Option (Option ℚ)
  | [], acc => some (some acc)
  | tp :: rest, acc =>
    match depPenaltyDeps P sol D tp.1 tp.2.dependencies acc with
    | none => none
    | some none => some none
    | some (some acc2) => depPenaltyTasks P sol D rest acc2

/-- Skill penalty contribution of one assignment (ga_fitness.py lines
59-62): 200 per point of shortfall on each required skill, the student level
defaulting to 0 for an absent skill. -/
def skillFor (stu : Student) (reqs : List (ℕ × ℚ)) : ℚ :=
  reqs.foldl (fun acc p =>
    let lvl := (stu.skills.lookup p.1).getD 0
    if lvl < p.2 then acc + 200 * (p.2 - lvl) else acc) 0

/-- Skill penalty over the whole solution.  The lookups always succeed on
the paths where the code evaluates this (the first pass has already
validated every id). -/
def skillPenalty (P : Problem) (sol : Solution) : ℚ :=
  sol.foldl (fun acc a =>
    match P.tasks.lookup a.1, P.students.lookup a.2.1 with
    | some task, some stu => acc + skillFor stu task.skill_requirements
    | _, _ => acc) 0

/-- Duration of the task referenced by an assignment. -/
def assignmentDuration (P : Problem) (a : Assignment) : ℚ :=
  ((P.tasks.lookup a.1).map (fun t => t.estimated_time)).getD 0

/-- Accumulated workload of one student: sum of the durations of all
assignments carrying that student id (duplicates included, matching the
first-pass accumulation). -/
def workloadOf (P : Problem) (sol : Solution) (s : ℕ) : ℚ :=
  (sol.filter (fun a => a.2.1 == s)).foldl
    (fun acc a => acc + assignmentDuration P a) 0

/-- Timeline of one student: the (start, completion) intervals of that
student's assignments in solution order, then sorted by Python list.sort on
pairs, which is lexicographic. -/
def timelineOf (P : Problem) (sol : Solution) (s : ℕ) : List (ℚ × ℚ) :=
  ((sol.filter (fun a => a.2.1 == s)).map
    (fun a => (a.2.2, a.2.2 + assignmentDuration P a))).mergeSort
    (fun x y => decide (x.1 < y.1 ∨ (x.1 = y.1 ∧ x.2 ≤ y.2)))

/-- Overlap penalty of one sorted timeline: 400 * overlap / D for each
adjacent overlapping pair (ga_fitness.py lines 78-81). -/
def overlapSum (D : ℚ) : List (ℚ × ℚ) → ℚ
  | x :: y :: rest =>
    (if y.1 < x.2 then 400 * ((x.2 - y.1) / D) else 0) + overlapSum D (y :: rest)
  | _ => 0

/-- FitnessCalculator.calculate_fitness from ga_fitness.py.  Returns none
when the Python code would raise (KeyError on an unknown task or student id
in the first pass, KeyError in the dependency loop, ZeroDivisionError when
the total task duration is zero and the time penalty divides by it), some
top for the explicit float('inf') returns, and some of a rational otherwise.
The weights are w1 = 1, w2 = 3, w3 = 2, w4 = 1, w5 = 4. -/
def calculate_fitness (P : Problem) (sol : Solution) : Option Fitness :=
  if sol.isEmpty then some ⊤
  else if sol.all (fun a => (P.tasks.lookup a.1).isSome
                    && (P.students.lookup a.2.1).isSome) then
    if (distinctTaskIds sol).length ≠ P.tasks.length then some ⊤
    else
      let D := totalTaskDuration P
      if D = 0 then none
      else
        let p_time := (listMaxQ (completionValues P sol) - listMinQ (startValues sol)) / D * 100
        match depPenaltyTasks P sol D P.tasks 0 with
        | none => none
        | some none => some ⊤
        | some (some p_dep) =>
          let p_skill := skillPenalty P sol
          let workloads := P.students.map (fun p => workloadOf P sol p.1)
          let avg := D / (P.students.length : ℚ)
          if avg = 0 then some ⊤
          else
            let p_load := 100 * (listMaxQ workloads - listMinQ workloads) / avg
            let p_overlap := (P.students.map (fun p => overlapSum D (timelineOf P sol p.1))).sum
            some (((1 * p_time + 3 * p_dep + 2 * p_skill + 1 * p_load + 4 * p_overlap : ℚ) : Fitness))
  else none

/-- Concrete task of duration 5 with no dependencies and no skill
requirements, used by the concrete evaluations below. -/
def task0 : Task := { estimated_time := 5, dependencies := [], skill_requirements := [] }

/-- Concrete task of duration 0. -/
def taskZeroDur : Task := { estimated_time := 0, dependencies := [], skill_requirements := [] }

/-- Concrete student with an empty skill map. -/
def student0 : Student := { skills := [] }

/-- One task, one student. -/
def P1 : Problem := { tasks := [(0, task0)], students := [(0, student0)] }

/-- One task but an empty student table (zero workers). -/
def Pnostudents : Problem := { tasks := [(0, task0)], students := [] }

/-- One task of duration 0 (zero total task duration). -/
def PzeroDuration : Problem := { tasks := [(0, taskZeroDur)], students := [(0, student0)] }

/-- A solution that assigns task 0 twice: the task appears in two
assignments while still covering the whole task table of P1. -/
def dupSolution : Solution := [(0, 0, 0), (0, 0, 0)]

/-- A single-assignment solution for the degenerate problems. -/
def solSingle : Solution := [(0, 0, 0)]

/-- C1, amended part: whenever every id of the solution resolves (so the
first pass raises no KeyError) and the number of distinct task ids covered
differs from the size of the task table, calculate_fitness returns the
unbounded cost.  This is the check at ga_fitness.py lines 37-38; it counts
distinct ids, so a task missing from the solution is always caught, but a
duplicated task is caught only when the duplication makes some other task
missing. -/
theorem calculate_fitness_wrong_coverage_inf (P : Problem) (sol : Solution)
    (hvalid : ∀ a ∈ sol, (P.tasks.lookup a.1).isSome ∧ (P.students.lookup a.2.1).isSome)
    (hmiss : (distinctTaskIds sol).length ≠ P.tasks.length) :
    calculate_fitness P sol = some ⊤ := by
  unfold calculate_fitness
  by_cases hempty : sol.isEmpty
  · simp [hempty]
  · have hall : sol.all (fun a => (P.tasks.lookup a.1).isSome
        && (P.students.lookup a.2.1).isSome) = true := by
      rw [List.all_eq_true]
      intro a ha
      rw [Bool.and_eq_true]
      exact ⟨(hvalid a ha).1, (hvalid a ha).2⟩
    simp [hempty, hall, hmiss]

/-- Witness for calculate_fitness_wrong_coverage_inf: a problem with two
tasks and a solution covering only one of them. -/
theorem calculate_fitness_wrong_coverage_inf_witness :
    calculate_fitness { tasks := [(0, task0), (1, task0)], students := [(0, student0)] }
      [(0, 0, 0)] = some ⊤ :=
  calculate_fitness_wrong_coverage_inf _ _
    (by intro a ha; simp at ha; subst ha; constructor <;> rfl)
    (by decide)

/-- C1, counterexample: in problem P1 (one task, one student) the solution
dupSolution assigns task 0 in two distinct assignments, yet
calculate_fitness returns the finite value 1700, not the unbounded cost:
duplicated tasks are not scored as unbounded cost when every task is still
covered, because the evaluator only compares the count of distinct covered
tasks with the size of the task table. -/
theorem calculate_fitness_duplicate_finite :
    (dupSolution.map (fun a => a.1)).count 0 = 2 ∧
    calculate_fitness P1 dupSolution = some ((1700 : ℚ) : Fitness) ∧
    calculate_fitness P1 dupSolution ≠ some (⊤ : Fitness) := by
  refine ⟨by decide, by with_unfolding_all decide, by with_unfolding_all decide⟩

/-- C3: on a problem with zero students (workers) and a nonempty solution,
calculate_fitness raises a KeyError (student_workloads has no key for the
assignment's student), modelled as none; and on a problem whose total task
duration is zero it raises ZeroDivisionError computing the time penalty
(ga_fitness.py line 42) before ever reaching the avg_workload guard of
lines 69-70, again modelled as none.  Both contradict the documented
behaviour of returning unbounded fitness without raising. -/
theorem calculate_fitness_degenerate_raises :
    calculate_fitness Pnostudents solSingle = none ∧
    calculate_fitness PzeroDuration solSingle = none := by
  refine ⟨by with_unfolding_all decide, by with_unfolding_all decide⟩

/-! Mutation (ga_mutation.py).  The random draws of Mutation.mutate (the
operator chosen by weighted random choice and each operator's own random
parameters) are supplied by an oracle of type Nat to MutOp giving the draw
of each loop iteration; the generation and max_generations arguments are
kept, because every loop iteration computes
progress = generation / max_generations (line 37), which raises
ZeroDivisionError when max_generations is zero — the progress value itself
is never read afterwards, and the operator-weight tables selected next only
shape the random operator choice, which the oracle absorbs.  The operators
themselves can raise through the task and student tables, so the model
carries the Problem. -/

/-- Truncation toward zero, the behaviour of the Python int() conversion on
a float. -/
def pyInt (q : ℚ) : ℤ := if 0 ≤ q then ⌊q⌋ else -⌊-q⌋

/-- The loop bound num_mutations of ga_mutation.py line 33:
max(1, int(len(solution) * 0.1 * temperature_ratio)). -/
def numMutations (len : ℕ) (tr : ℚ) : ℕ :=
  max 1 (pyInt ((len : ℚ) * (1/10) * tr)).toNat

/-- One application of a mutation operator together with the random
parameters the code draws for it. -/
inductive MutOp where
  | reassign (pos : ℕ) (newStudent : ℕ)
  | adjustTime (pos : ℕ) (adjustment : ℚ)
  | swapTasks (pos1 pos2 : ℕ)
  | shiftSchedule (startPos len : ℕ) (shift : ℚ)

/-- Body of the shift_schedule branch: shift the start times of the run of
assignments at positions startPos to startPos+len-1 by a shared offset,
clamped at zero. -/
def shiftRange (sol : Solution) (startPos len : ℕ) (shift : ℚ) : Solution :=
  (List.range len).foldl (fun acc k =>
    match acc[startPos + k]? with
    | some a => acc.set (startPos + k) (a.1, a.2.1, max 0 (a.2.2 + shift))
    | none => acc) sol

/-- One operator application of the mutation loop of Mutation.mutate
(ga_mutation.py lines 45-88), exceptions modelled as none: the reassign
branch calls get_suitable_student, which reads self.tasks[task_id]
(KeyError when the id is missing from the task table) and then draws from
the suitable students, or from all students when none qualify, so it
raises IndexError exactly when the student table is empty; the adjust_time
branch reads self.tasks[task_id]['estimated_time'] (KeyError when
missing); swap_tasks and shift_schedule touch no table and cannot raise.
The code's position draws are always in range and its swap_tasks positions
distinct; the oracle may produce arbitrary numbers, out-of-range reads are
treated as no-ops, and the oracle's newStudent stands for the random
choice among the qualifying students, so every code behaviour is a special
case of the model. -/
def applyMutation (P : Problem) (sol : Solution) : MutOp → Option Solution
  | .reassign pos newStudent =>
    match sol[pos]? with
    | none => some sol
    | some a =>
      if (P.tasks.lookup a.1).isSome then
        if P.students.isEmpty then none
        else some (sol.set pos (a.1, newStudent, a.2.2))
      else none
  | .adjustTime pos adj =>
    match sol[pos]? with
    | none => some sol
    | some a =>
      if (P.tasks.lookup a.1).isSome then
        some (sol.set pos (a.1, a.2.1, max 0 (a.2.2 + adj)))
      else none
  | .swapTasks pos1 pos2 =>
    if sol.length < 2 then some sol
    else
      match sol[pos1]?, sol[pos2]? with
      | some a1, some a2 =>
        some ((sol.set pos1 (a1.1, a2.2.1, a1.2.2)).set pos2 (a2.1, a1.2.1, a2.2.2))
      | _, _ => some sol
  | .shiftSchedule startPos len shift =>
    if sol.length < 2 then some sol
    else some (shiftRange sol startPos len shift)

/-- Result of a call of Mutation.mutate: a raised Python exception, the
Python None returned on empty input, or a mutated solution. -/
inductive MutResult where
  | exn : MutResult
  | pyNone : MutResult
  | ok : Solution → MutResult
deriving DecidableEq

/-- Mutation.mutate from ga_mutation.py lines 23-90: the Python None on an
empty solution, otherwise numMutations loop iterations.  Each iteration
first evaluates progress = generation / max_generations, raising
ZeroDivisionError when max_generations = 0 (the loop always runs at least
once, since numMutations is at least 1); the quotient itself is dead, kept
here as the unused binding it is in the source.  Then an oracle-chosen
operator is applied; an exception from the division or from an operator
aborts the call. -/
def mutate (P : Problem) (sol : Solution) (generation max_generations : ℕ)
    (temperature_ratio : ℚ) (ops : ℕ → MutOp) : MutResult :=
  if sol.isEmpty then .pyNone
  else
    match (List.range (numMutations sol.length temperature_ratio)).foldl
        (fun acc k => acc.bind (fun s =>
          if max_generations = 0 then none
          else
            let _progress : ℚ := (generation : ℚ) / (max_generations : ℚ)
            applyMutation P s (ops k)))
        (some sol) with
    | none => .exn
    | some res => .ok res

/-- Task id stored at position i of a solution, as an optional value. -/
def taskAt (sol : Solution) (i : ℕ) : Option ℕ := sol[i]?.map (fun a => a.1)

theorem length_set_preserved (l : Solution) (p : ℕ) (v : Assignment) :
    (l.set p v).length = l.length := List.length_set l p v

theorem taskAt_set_same (l : Solution) (p : ℕ) (v : Assignment) (a : Assignment)
    (hread : l[p]? = some a) (hid : v.1 = a.1) (i : ℕ) :
    taskAt (l.set p v) i = taskAt l i := by
  unfold taskAt
  rw [List.getElem?_set]
  by_cases hpi : p = i
  · subst hpi
    have hlt : p < l.length := by
      have := List.getElem?_eq_some_iff.mp hread
      exact this.1
    simp [hlt, hread, hid]
  · simp [hpi]

theorem length_shiftRange (sol : Solution) (startPos len : ℕ) (shift : ℚ) :
    (shiftRange sol startPos len shift).length = sol.length := by
  unfold shiftRange
  induction (List.range len) generalizing sol with
  | nil => rfl
  | cons k rest ih =>
    simp only [List.foldl_cons]
    rcases h : sol[startPos + k]? with _ | a
    · simpa [h] using ih sol
    · simp only [h]
      rw [ih]
      exact List.length_set sol _ _

theorem taskAt_shiftRange (sol : Solution) (startPos len : ℕ) (shift : ℚ) (i : ℕ) :
    taskAt (shiftRange sol startPos len shift) i = taskAt sol i := by
  unfold shiftRange
  induction (List.range len) generalizing sol with
  | nil => rfl
  | cons k rest ih =>
    simp only [List.foldl_cons]
    rcases h : sol[startPos + k]? with _ | a
    · simpa [h] using ih sol
    · simp only [h]
      rw [ih]
      exact taskAt_set_same sol (startPos + k) (a.1, a.2.1, max 0 (a.2.2 + shift)) a h rfl i

theorem applyMutation_ok (P : Problem) (sol : Solution) (op : MutOp) (res : Solution)
    (h : applyMutation P sol op = some res) :
    res.length = sol.length ∧ ∀ i : ℕ, taskAt res i = taskAt sol i := by
  rcases op with ⟨pos, ns⟩ | ⟨pos, adj⟩ | ⟨p1, p2⟩ | ⟨sp, ln, sh⟩
  · simp only [applyMutation] at h
    split at h
    · rw [← Option.some.inj h]
      exact ⟨rfl, fun i => rfl⟩
    · rename_i a heq
      split at h
      · split at h
        · exact Option.noConfusion h
        · rw [← Option.some.inj h]
          exact ⟨List.length_set sol pos _,
            fun i => taskAt_set_same sol pos (a.1, ns, a.2.2) a heq rfl i⟩
      · exact Option.noConfusion h
  · simp only [applyMutation] at h
    split at h
    · rw [← Option.some.inj h]
      exact ⟨rfl, fun i => rfl⟩
    · rename_i a heq
      split at h
      · rw [← Option.some.inj h]
        exact ⟨List.length_set sol pos _,
          fun i => taskAt_set_same sol pos (a.1, a.2.1, max 0 (a.2.2 + adj)) a heq rfl i⟩
      · exact Option.noConfusion h
  · simp only [applyMutation] at h
    split at h
    · rw [← Option.some.inj h]
      exact ⟨rfl, fun i => rfl⟩
    · split at h
      · rename_i a1 a2 h1 h2
        rw [← Option.some.inj h]
        refine ⟨by rw [List.length_set, List.length_set], fun i => ?_⟩
        have hmid : (sol.set p1 (a1.1, a2.2.1, a1.2.2))[p2]?.map (fun x => x.1)
            = some a2.1 := by
          rw [List.getElem?_set]
          by_cases hpp : p1 = p2
          · subst hpp
            have hlt : p1 < sol.length := (List.getElem?_eq_some_iff.mp h1).1
            have ha : a1 = a2 := by rw [h1] at h2; exact Option.some.inj h2
            simp [hlt, ha]
          · simp [hpp, h2]
        rcases hmid2 : (sol.set p1 (a1.1, a2.2.1, a1.2.2))[p2]? with _ | b
        · rw [hmid2] at hmid; simp at hmid
        · rw [hmid2] at hmid
          have hb : (a2.1, a1.2.1, a2.2.2).1 = b.1 := by
            have hs : some b.1 = some a2.1 := by simpa using hmid
            exact (Option.some.inj hs).symm
          rw [taskAt_set_same (sol.set p1 (a1.1, a2.2.1, a1.2.2)) p2
            (a2.1, a1.2.1, a2.2.2) b hmid2 hb i]
          exact taskAt_set_same sol p1 (a1.1, a2.2.1, a1.2.2) a1 h1 rfl i
      · rw [← Option.some.inj h]
        exact ⟨rfl, fun i => rfl⟩
  · simp only [applyMutation] at h
    split at h
    · rw [← Option.some.inj h]
      exact ⟨rfl, fun i => rfl⟩
    · rw [← Option.some.inj h]
      exact ⟨length_shiftRange sol sp ln sh, fun i => taskAt_shiftRange sol sp ln sh i⟩

theorem foldl_bind_none {σ : Type} (step : ℕ → σ → Option σ) (l : List ℕ) :
    l.foldl (fun acc k => acc.bind (step k)) none = none := by
  induction l with
  | nil => rfl
  | cons k rest ih => simpa using ih

theorem foldl_bind_invariant {σ : Type} (step : ℕ → σ → Option σ)
    (Inv : σ → Prop) (hstep : ∀ k s s', step k s = some s' → Inv s → Inv s') :
    ∀ (l : List ℕ) (s0 s : σ), Inv s0 →
      l.foldl (fun acc k => acc.bind (step k)) (some s0) = some s → Inv s := by
  intro l
  induction l with
  | nil =>
    intro s0 s h0 h
    rw [← Option.some.inj h]
    exact h0
  | cons k rest ih =>
    intro s0 s h0 h
    simp only [List.foldl_cons, Option.some_bind] at h
    rcases hk : step k s0 with _ | s1
    · rw [hk] at h
      exact absurd (foldl_bind_none step rest ▸ h) (by simp)
    · rw [hk] at h
      exact ih s1 s (hstep k s0 s1 hk h0) h

/-- C10, amended: for every non-empty solution and every argument
combination on which Mutation.mutate returns a list at all — it raises
ZeroDivisionError when max_generations is zero, and its reassign and
adjust_time operators raise KeyError or IndexError when a drawn
assignment's task id is missing from the task table or the student table
is empty — the returned list has the same length as the input and carries
the same task identifier at every position: the four operators rewrite
workers and start times in place and never add, remove or relocate a task
across positions. -/
theorem mutate_preserves_tasks (P : Problem) (sol : Solution)
    (generation max_generations : ℕ) (tr : ℚ) (ops : ℕ → MutOp)
    (hne : sol ≠ []) (res : Solution)
    (hres : mutate P sol generation max_generations tr ops = MutResult.ok res) :
    res.length = sol.length ∧ ∀ i : ℕ, taskAt res i = taskAt sol i := by
  unfold mutate at hres
  have hemp : sol.isEmpty = false := by
    rcases sol with _ | ⟨a, rest⟩
    · exact absurd rfl hne
    · rfl
  rw [hemp] at hres
  simp only [Bool.false_eq_true, if_false] at hres
  split at hres
  · exact MutResult.noConfusion hres
  · rename_i mid hfold
    have hmr : mid = res := MutResult.ok.inj hres
    subst hmr
    exact foldl_bind_invariant
      (fun k s =>
        if max_generations = 0 then none
        else
          let _progress : ℚ := (generation : ℚ) / (max_generations : ℚ)
          applyMutation P s (ops k))
      (fun s => s.length = sol.length ∧ ∀ i : ℕ, taskAt s i = taskAt sol i)
      (by
        intro k s s' hstep hs
        dsimp only [] at hstep
        by_cases hmg : max_generations = 0
        · rw [if_pos hmg] at hstep
          exact Option.noConfusion hstep
        · rw [if_neg hmg] at hstep
          obtain ⟨hl, ht⟩ := applyMutation_ok P s (ops k) s' hstep
          exact ⟨hl.trans hs.1, fun i => (ht i).trans (hs.2 i)⟩)
      (List.range (numMutations sol.length tr)) sol mid
      ⟨rfl, fun i => rfl⟩ hfold

/-- Witness for mutate_preserves_tasks on a successful call: problem P1,
the one-assignment solution, the default generation arguments and a
reassignment oracle. -/
theorem mutate_preserves_tasks_witness :
    ([(0, 7, 0)] : Solution).length = solSingle.length ∧
    ∀ i : ℕ, taskAt [(0, 7, 0)] i = taskAt solSingle i :=
  mutate_preserves_tasks P1 solSingle 0 100 1 (fun _ => MutOp.reassign 0 7)
    (by decide) [(0, 7, 0)] (by with_unfolding_all decide)

/-- C10, counterexample: the claim quantifies over every argument
combination, but a call of Mutation.mutate on the non-empty one-assignment
solution with max_generations = 0 raises ZeroDivisionError at
progress = generation / max_generations and returns no list; likewise a
non-empty solution whose task id 5 is missing from the task table of P1
raises KeyError inside the adjust_time operator. -/
theorem mutate_zero_max_generations_exn :
    solSingle ≠ [] ∧
    mutate P1 solSingle 0 0 1 (fun _ => MutOp.reassign 0 7) = MutResult.exn ∧
    mutate P1 [(5, 0, 0)] 0 100 1 (fun _ => MutOp.adjustTime 0 1) = MutResult.exn := by
  refine ⟨by decide, by with_unfolding_all decide, by with_unfolding_all decide⟩

theorem foldl_bind_ops_congr {σ : Type} (step : σ → MutOp → Option σ) :
    ∀ (l : List ℕ) (o1 o2 : ℕ → MutOp) (acc : Option σ),
      (∀ k ∈ l, o1 k = o2 k) →
      l.foldl (fun a k => a.bind (fun s => step s (o1 k))) acc
        = l.foldl (fun a k => a.bind (fun s => step s (o2 k))) acc := by
  intro l
  induction l with
  | nil => intro o1 o2 acc _; rfl
  | cons k rest ih =>
    intro o1 o2 acc h
    simp only [List.foldl_cons]
    rw [h k (List.mem_cons_self k rest)]
    exact ih o1 o2 _ (fun j hj => h j (List.mem_cons_of_mem k hj))

/-- C2, amended: for a nonempty solution of length L and temperature ratio
0 ≤ tr, the number of mutation applications a call of Mutation.mutate
performs is exactly max(1, floor(L * 0.1 * tr)) — the Python int()
truncates (floors, for the non-negative product) instead of rounding.  The
count is made observable by the fact that the call's result depends only
on the first numMutations entries of the operator oracle, for every
problem and generation argument. -/
theorem mutate_application_count (P : Problem) (sol : Solution)
    (generation max_generations : ℕ) (tr : ℚ) (htr : 0 ≤ tr) (hne : sol ≠ []) :
    numMutations sol.length tr
      = max 1 (Int.toNat ⌊(sol.length : ℚ) * (1/10) * tr⌋) ∧
    ∀ ops1 ops2 : ℕ → MutOp,
      (∀ k < numMutations sol.length tr, ops1 k = ops2 k) →
      mutate P sol generation max_generations tr ops1
        = mutate P sol generation max_generations tr ops2 := by
  constructor
  · unfold numMutations pyInt
    have hq : (0:ℚ) ≤ (sol.length : ℚ) * (1/10) * tr := by positivity
    rw [if_pos hq]
  · intro ops1 ops2 h
    have hemp : sol.isEmpty = false := by
      rcases sol with _ | ⟨a, rest⟩
      · exact absurd rfl hne
      · rfl
    unfold mutate
    rw [hemp]
    simp only [Bool.false_eq_true, if_false]
    have hfe : (List.range (numMutations sol.length tr)).foldl
        (fun acc k => acc.bind (fun s =>
          if max_generations = 0 then none
          else
            let _progress : ℚ := (generation : ℚ) / (max_generations : ℚ)
            applyMutation P s (ops1 k)))
        (some sol)
      = (List.range (numMutations sol.length tr)).foldl
        (fun acc k => acc.bind (fun s =>
          if max_generations = 0 then none
          else
            let _progress : ℚ := (generation : ℚ) / (max_generations : ℚ)
            applyMutation P s (ops2 k)))
        (some sol) :=
      foldl_bind_ops_congr
        (fun s op =>
          if max_generations = 0 then none
          else
            let _progress : ℚ := (generation : ℚ) / (max_generations : ℚ)
            applyMutation P s op)
        (List.range (numMutations sol.length tr)) ops1 ops2 (some sol)
        (fun k hk => h k (List.mem_range.mp hk))
    rw [hfe]

/-- Witness for mutate_application_count at the one-assignment solution,
temperature ratio 1 and the default generation arguments. -/
theorem mutate_application_count_witness :
    (numMutations solSingle.length 1
      = max 1 (Int.toNat ⌊(solSingle.length : ℚ) * (1/10) * 1⌋) ∧
    ∀ ops1 ops2 : ℕ → MutOp,
      (∀ k < numMutations solSingle.length 1, ops1 k = ops2 k) →
      mutate P1 solSingle 0 100 1 ops1 = mutate P1 solSingle 0 100 1 ops2) :=
  mutate_application_count P1 solSingle 0 100 1 (by norm_num) (by decide)

/-- C2, counterexample: for a solution of length 16 at temperature ratio 1
the code performs max(1, int(1.6)) = 1 mutation application, whereas the
claimed formula max(1, round(1.6)) gives 2. -/
theorem mutate_count_round_cex :
    numMutations 16 1 = 1 ∧ max 1 (Int.toNat (round ((16 : ℚ) * (1/10) * 1))) = 2 := by
  constructor
  · unfold numMutations pyInt
    norm_num
  · have : round ((16 : ℚ) * (1/10) * 1) = 2 := by
      rw [round_eq]
      norm_num
    rw [this]
    decide

/-! Crossover (ga_crossover.py).  Crossover.uniform_crossover walks the gene
positions of parent1 and swaps child genes with probability
swap_probability; the draws of random.random() (values in the interval
[0,1)) are supplied by an oracle. -/

/-- Loop body state of uniform_crossover: fold over the remaining gene
positions, children carried along.  Reading parent2[i] (or writing
child2[i]) out of range raises IndexError in Python, modelled as none;
parent1[i] is always in range for positions drawn from range(len(parent1)).
Both children start as copies of the parents and swaps read from the
unmodified parents (ga_crossover.py lines 67-70). -/
def ucAux (p1 p2 : Solution) (draws : ℕ → ℚ) (sp : ℚ) :
    List ℕ → Solution × Solution → Option (Solution × Solution)
  | [], acc => some acc
  | i :: rest, (c1, c2) =>
    if draws i < sp then
      match p2[i]?, p1[i]? with
      | some a, some b => ucAux p1 p2 draws sp rest (c1.set i a, c2.set i b)
      | _, _ => none
    else ucAux p1 p2 draws sp rest (c1, c2)

/-- Crossover.uniform_crossover from ga_crossover.py lines 60-72. -/
def uniform_crossover (p1 p2 : Solution) (draws : ℕ → ℚ) (sp : ℚ) :
    Option (Solution × Solution) :=
  ucAux p1 p2 draws sp (List.range p1.length) (p1, p2)

theorem ucAux_no_swap (p1 p2 : Solution) (draws : ℕ → ℚ) (sp : ℚ) :
    ∀ (l : List ℕ) (acc : Solution × Solution),
      (∀ i ∈ l, ¬ (draws i < sp)) → ucAux p1 p2 draws sp l acc = some acc := by
  intro l
  induction l with
  | nil => intro acc _; rfl
  | cons i rest ih =>
    intro acc h
    rcases acc with ⟨c1, c2⟩
    unfold ucAux
    rw [if_neg (h i (List.mem_cons_self i rest))]
    exact ih (c1, c2) (fun j hj => h j (List.mem_cons_of_mem i hj))

/-- Overwrite operation of one all-swap step: copy position i of src into
the child. -/
def copyF (src : Solution) (c : Solution) (i : ℕ) : Solution :=
  match src[i]? with
  | some a => c.set i a
  | none => c

theorem ucAux_all_swap (p1 p2 : Solution) (draws : ℕ → ℚ) (sp : ℚ) :
    ∀ (l : List ℕ) (c1 c2 : Solution),
      (∀ i ∈ l, draws i < sp) → (∀ i ∈ l, i < p1.length ∧ i < p2.length) →
      ucAux p1 p2 draws sp l (c1, c2)
        = some (l.foldl (copyF p2) c1, l.foldl (copyF p1) c2) := by
  intro l
  induction l with
  | nil => intro c1 c2 _ _; rfl
  | cons i rest ih =>
    intro c1 c2 hsw hb
    have hb1 : i < p1.length := (hb i (List.mem_cons_self i rest)).1
    have hb2 : i < p2.length := (hb i (List.mem_cons_self i rest)).2
    rcases hp2 : p2[i]? with _ | a
    · exact absurd (List.getElem?_eq_none_iff.mp hp2) (by omega)
    · rcases hp1 : p1[i]? with _ | b
      · exact absurd (List.getElem?_eq_none_iff.mp hp1) (by omega)
      · unfold ucAux
        rw [if_pos (hsw i (List.mem_cons_self i rest))]
        rw [hp2, hp1]
        simp only [List.foldl_cons]
        have hc1 : copyF p2 c1 i = c1.set i a := by unfold copyF; rw [hp2]
        have hc2 : copyF p1 c2 i = c2.set i b := by unfold copyF; rw [hp1]
        rw [hc1, hc2]
        exact ih (c1.set i a) (c2.set i b)
          (fun j hj => hsw j (List.mem_cons_of_mem i hj))
          (fun j hj => hb j (List.mem_cons_of_mem i hj))

theorem foldl_copyF_range (src : Solution) :
    ∀ (k : ℕ) (dst : Solution), dst.length = src.length → k ≤ src.length →
      ((List.range k).foldl (copyF src) dst).length = dst.length ∧
      ∀ j : ℕ, ((List.range k).foldl (copyF src) dst)[j]?
        = if j < k then src[j]? else dst[j]? := by
  intro k
  induction k with
  | zero =>
    intro dst _ _
    refine ⟨rfl, fun j => ?_⟩
    simp
  | succ k ih =>
    intro dst hd hk
    have hk' : k ≤ src.length := Nat.le_of_succ_le hk
    obtain ⟨ihlen, ihget⟩ := ih dst hd hk'
    rw [List.range_succ, List.foldl_append]
    simp only [List.foldl_cons, List.foldl_nil]
    rcases hs : src[k]? with _ | a
    · exact absurd (List.getElem?_eq_none_iff.mp hs) (by omega)
    · have hcopy : copyF src ((List.range k).foldl (copyF src) dst) k
          = ((List.range k).foldl (copyF src) dst).set k a := by
        unfold copyF; rw [hs]
      rw [hcopy]
      refine ⟨by rw [List.length_set]; exact ihlen, fun j => ?_⟩
      rw [List.getElem?_set]
      by_cases hjk : k = j
      · subst hjk
        have hklen : k < ((List.range k).foldl (copyF src) dst).length := by
          rw [ihlen]; omega
        simp [hklen, hs, Nat.lt_succ_self]
      · rw [if_neg hjk, ihget j]
        by_cases hjlt : j < k
        · rw [if_pos hjlt, if_pos (by omega)]
        · rw [if_neg hjlt, if_neg (by omega)]

/-- C9: on equal-length parents, uniform crossover with swap probability 0
returns the parents as they are, and with swap probability 1 returns the
swapped pair, for every oracle of draws from [0,1). -/
theorem uniform_crossover_extremes (p1 p2 : Solution) (draws : ℕ → ℚ)
    (hlen : p1.length = p2.length) (hdraws : ∀ i, 0 ≤ draws i ∧ draws i < 1) :
    uniform_crossover p1 p2 draws 0 = some (p1, p2) ∧
    uniform_crossover p1 p2 draws 1 = some (p2, p1) := by
  constructor
  · unfold uniform_crossover
    exact ucAux_no_swap p1 p2 draws 0 _ (p1, p2)
      (fun i _ => not_lt.mpr (hdraws i).1)
  · unfold uniform_crossover
    rw [ucAux_all_swap p1 p2 draws 1 _ p1 p2
      (fun i _ => (hdraws i).2)
      (fun i hi => ⟨List.mem_range.mp hi, hlen ▸ List.mem_range.mp hi⟩)]
    obtain ⟨hl1, hg1⟩ := foldl_copyF_range p2 p1.length p1 hlen (le_of_eq hlen)
    obtain ⟨hl2, hg2⟩ := foldl_copyF_range p1 p1.length p2 hlen.symm (le_of_eq rfl)
    have e1 : (List.range p1.length).foldl (copyF p2) p1 = p2 := by
      apply List.ext_getElem?
      intro j
      rw [hg1 j]
      by_cases hj : j < p1.length
      · rw [if_pos hj]
      · rw [if_neg hj]
        rw [List.getElem?_eq_none_iff.mpr (by omega),
          List.getElem?_eq_none_iff.mpr (by omega)]
    have e2 : (List.range p1.length).foldl (copyF p1) p2 = p1 := by
      apply List.ext_getElem?
      intro j
      rw [hg2 j]
      by_cases hj : j < p1.length
      · rw [if_pos hj]
      · rw [if_neg hj]
        rw [List.getElem?_eq_none_iff.mpr (by omega),
          List.getElem?_eq_none_iff.mpr (by omega)]
    rw [e1, e2]

/-- Witness for uniform_crossover_extremes on concrete two-gene parents
with the constant draw 1/2. -/
theorem uniform_crossover_extremes_witness :
    uniform_crossover [(0, 0, 0), (1, 0, 1)] [(0, 1, 5), (1, 1, 6)]
        (fun _ => 1/2) 0 = some ([(0, 0, 0), (1, 0, 1)], [(0, 1, 5), (1, 1, 6)]) ∧
    uniform_crossover [(0, 0, 0), (1, 0, 1)] [(0, 1, 5), (1, 1, 6)]
        (fun _ => 1/2) 1 = some ([(0, 1, 5), (1, 1, 6)], [(0, 0, 0), (1, 0, 1)]) :=
  uniform_crossover_extremes [(0, 0, 0), (1, 0, 1)] [(0, 1, 5), (1, 1, 6)]
    (fun _ => 1/2) rfl (fun _ => by norm_num)

/-! Local search (ga_local_search.py).  The three neighbourhood moves
(_try_reassignment, _try_time_adjustment, _try_task_swap) draw random
positions, students and offsets; each is absorbed into a move oracle
mapping (iteration, move number, current solution) to the candidate
solution, which covers every random outcome.  The fitness function is the
shared calculate_fitness, abstracted to any Solution to Option Fitness map
so the theorems hold for every problem instance; a none fitness models the
exception propagating out of improve_solution. -/

/-- Loop state of LocalSearch.improve_solution: best solution and fitness,
current solution, the no-improvement counter, and whether the early-stop
break has fired. -/
structure LSState where
  best : Solution
  bestFit : Fitness
  cur : Solution
  noImprove : ℕ
  stopped : Bool

/-- Acceptance test shared by the three move blocks (ga_local_search.py
lines 24-28, 33-37, 42-46): accept the candidate only when its fitness is
strictly below the best fitness found so far, in which case best and
current both become the candidate; the Bool records whether any move of the
iteration was accepted. -/
def lsAccept (st : LSState × Bool) (cand : Solution) (fc : Fitness) :
    LSState × Bool :=
  if fc < st.1.bestFit then
    ({ st.1 with best := cand, bestFit := fc, cur := cand }, true)
  else st

/-- End of one local-search iteration: set the no-improvement counter from
the improved flag of the iteration and fire the early-stop flag when it
reaches max_no_improve. -/
def lsFinish (st : LSState) (max_no_improve : ℕ) (s3 : LSState × Bool) :
    Option LSState :=
  some { s3.1 with
         noImprove := (if s3.2 then 0 else st.noImprove + 1),
         stopped := decide ((if s3.2 then 0 else st.noImprove + 1) ≥ max_no_improve) }

/-- One iteration of the local-search loop: try the three moves in order,
each generated from the current solution as left by the previous move, then
update the no-improvement counter and the early-stop flag
(no_improve_counter >= max_no_improve). -/
def lsIterate (f : Solution → Option Fitness)
    (move : ℕ → ℕ → Solution → Solution) (max_no_improve : ℕ) (k : ℕ)
    (st : LSState) : Option LSState :=
  if st.stopped then some st
  else
    match f (move k 0 st.cur) with
    | none => none
    | some f1 =>
      match f (move k 1 (lsAccept (st, false) (move k 0 st.cur) f1).1.cur) with
      | none => none
      | some f2 =>
        match f (move k 2 (lsAccept (lsAccept (st, false) (move k 0 st.cur) f1)
            (move k 1 (lsAccept (st, false) (move k 0 st.cur) f1).1.cur) f2).1.cur) with
        | none => none
        | some f3 =>
          lsFinish st max_no_improve
            (lsAccept (lsAccept (lsAccept (st, false) (move k 0 st.cur) f1)
                (move k 1 (lsAccept (st, false) (move k 0 st.cur) f1).1.cur) f2)
              (move k 2 (lsAccept (lsAccept (st, false) (move k 0 st.cur) f1)
                (move k 1 (lsAccept (st, false) (move k 0 st.cur) f1).1.cur) f2).1.cur) f3)

/-- State after k iterations of LocalSearch.improve_solution, starting from
the input solution with its fitness as initial best. -/
def lsRun (f : Solution → Option Fitness) (move : ℕ → ℕ → Solution → Solution)
    (max_no_improve : ℕ) (sol0 : Solution) : ℕ → Option LSState
  | 0 =>
    match f sol0 with
    | none => none
    | some if0 =>
      some { best := sol0, bestFit := if0, cur := sol0, noImprove := 0, stopped := false }
  | k + 1 => (lsRun f move max_no_improve sol0 k).bind (lsIterate f move max_no_improve k)

namespace LocalSearch

/-- LocalSearch.improve_solution from ga_local_search.py lines 10-56:
run max_iterations loop iterations (with the early break folded into the
stopped flag) and return the best solution and its fitness. -/
def improve_solution (f : Solution → Option Fitness)
    (move : ℕ → ℕ → Solution → Solution) (sol0 : Solution)
    (max_iterations max_no_improve : ℕ) : Option (Solution × Fitness) :=
  (lsRun f move max_no_improve sol0 max_iterations).map (fun st => (st.best, st.bestFit))

end LocalSearch

theorem lsAccept_bestFit_le (st : LSState × Bool) (cand : Solution) (fc : Fitness) :
    (lsAccept st cand fc).1.bestFit ≤ st.1.bestFit := by
  unfold lsAccept
  by_cases h : fc < st.1.bestFit
  · rw [if_pos h]; exact le_of_lt h
  · rw [if_neg h]

theorem lsFinish_bestFit (st : LSState) (mni : ℕ) (s3 : LSState × Bool)
    (st' : LSState) (h : lsFinish st mni s3 = some st') :
    st'.bestFit = s3.1.bestFit := by
  unfold lsFinish at h
  rw [← Option.some.inj h]

theorem lsIterate_bestFit_le (f : Solution → Option Fitness)
    (move : ℕ → ℕ → Solution → Solution) (mni k : ℕ) (st st' : LSState)
    (h : lsIterate f move mni k st = some st') : st'.bestFit ≤ st.bestFit := by
  unfold lsIterate at h
  split at h
  · rw [← Option.some.inj h]
  · split at h
    · exact Option.noConfusion h
    · split at h
      · exact Option.noConfusion h
      · split at h
        · exact Option.noConfusion h
        · rw [lsFinish_bestFit _ _ _ _ h]
          exact le_trans (lsAccept_bestFit_le _ _ _)
            (le_trans (lsAccept_bestFit_le _ _ _) (lsAccept_bestFit_le _ _ _))

theorem lsRun_bestFit_le_initial (f : Solution → Option Fitness)
    (move : ℕ → ℕ → Solution → Solution) (mni : ℕ) (sol0 : Solution) (ifit : Fitness)
    (hf : f sol0 = some ifit) :
    ∀ (k : ℕ) (st : LSState), lsRun f move mni sol0 k = some st → st.bestFit ≤ ifit := by
  intro k
  induction k with
  | zero =>
    intro st h
    unfold lsRun at h
    rw [hf] at h
    rw [← Option.some.inj h]
  | succ k ih =>
    intro st h
    unfold lsRun at h
    rcases hprev : lsRun f move mni sol0 k with _ | st0 <;> rw [hprev] at h
    · exact absurd h (by simp)
    · exact le_trans (lsIterate_bestFit_le f move mni k st0 st h) (ih st0 hprev)

/-- C7: a local-search move is accepted only when it strictly improves the
best fitness found so far, so the best-fitness value after each iteration
never exceeds the one before it, and the returned best fitness never
exceeds the fitness of the input solution.  Quantified over the fitness map
and the move oracle, hence over every random outcome and problem
instance. -/
theorem local_search_monotone (f : Solution → Option Fitness)
    (move : ℕ → ℕ → Solution → Solution) (sol0 : Solution)
    (max_iterations max_no_improve : ℕ) (ifit : Fitness)
    (hf : f sol0 = some ifit) :
    (∀ res, LocalSearch.improve_solution f move sol0 max_iterations max_no_improve
        = some res → res.2 ≤ ifit) ∧
    (∀ (k : ℕ) (st st' : LSState), lsRun f move max_no_improve sol0 k = some st →
        lsRun f move max_no_improve sol0 (k + 1) = some st' →
        st'.bestFit ≤ st.bestFit) := by
  constructor
  · intro res hres
    unfold LocalSearch.improve_solution at hres
    rcases hrun : lsRun f move max_no_improve sol0 max_iterations with _ | st <;>
      rw [hrun] at hres
    · exact absurd hres (by simp)
    · have : res = (st.best, st.bestFit) := by
        simpa using hres.symm
      rw [this]
      exact lsRun_bestFit_le_initial f move max_no_improve sol0 ifit hf max_iterations st hrun
  · intro k st st' hk hk1
    unfold lsRun at hk1
    rw [hk] at hk1
    exact lsIterate_bestFit_le f move max_no_improve k st st' hk1

/-- Witness for local_search_monotone: constant fitness 5, identity moves,
one iteration. -/
theorem local_search_monotone_witness :
    (∀ res, LocalSearch.improve_solution (fun _ => some ((5:ℚ) : Fitness))
        (fun _ _ s => s) solSingle 1 1 = some res → res.2 ≤ ((5:ℚ) : Fitness)) ∧
    (∀ (k : ℕ) (st st' : LSState),
        lsRun (fun _ => some ((5:ℚ) : Fitness)) (fun _ _ s => s) 1 solSingle k = some st →
        lsRun (fun _ => some ((5:ℚ) : Fitness)) (fun _ _ s => s) 1 solSingle (k + 1) = some st' →
        st'.bestFit ≤ st.bestFit) :=
  local_search_monotone (fun _ => some ((5:ℚ) : Fitness)) (fun _ _ s => s)
    solSingle 1 1 ((5:ℚ) : Fitness) rfl

/-! Simulated annealing (ga_simulated_annealing.py).  The neighbour
generator _get_neighbor (operator drawn by temperature-weighted choice plus
its own random parameters) is absorbed into an oracle mapping (iteration,
neighbour number, current solution) to a solution.  The comparison of the
acceptance probability with random.random() is absorbed into a Boolean
oracle per iteration, refined by two facts read off _acceptance_probability
(lines 96-109): it returns 1.0 when the candidate strictly improves the
current fitness, and 1.0 is strictly above every random.random() draw, so
such candidates are always accepted; and when the candidate fitness is the
float infinity without improving, it returns exp of minus infinity = 0.0 or
nan, neither of which is strictly above a draw from [0,1), so such
candidates are never accepted. -/

/-- Loop state of SimulatedAnnealing.improve_solution. -/
structure SAState where
  cur : Solution
  curFit : Fitness
  best : Solution
  bestFit : Fitness
  temp : ℚ
  noImprove : ℕ
  stopped : Bool

/-- Candidate update of the best-of-three scan: keep the new neighbour only
on strictly smaller fitness. -/
def saPick (acc : Option Solution × Fitness) (cand : Solution) (fc : Fitness) :
    Option Solution × Fitness :=
  if fc < acc.2 then (some cand, fc) else acc

/-- Best of the three neighbours generated in one iteration (lines
151-164): best_neighbor starts as None with fitness infinity and is
replaced on strict improvement, so ties keep the earliest; a none fitness
(an exception inside calculate_fitness) aborts the whole call. -/
def saBestNeighbor (f : Solution → Option Fitness)
    (neighbor : ℕ → ℕ → Solution → Solution) (k : ℕ) (cur : Solution) :
    Option (Option Solution × Fitness) :=
  match f (neighbor k 0 cur) with
  | none => none
  | some f0 =>
    match f (neighbor k 1 cur) with
    | none => none
    | some f1 =>
      match f (neighbor k 2 cur) with
      | none => none
      | some f2 =>
        some (saPick (saPick (saPick (none, ⊤) (neighbor k 0 cur) f0)
          (neighbor k 1 cur) f1) (neighbor k 2 cur) f2)

/-- Acceptance and state update of one iteration (lines 169-193): accept
when the best neighbour strictly improves the current fitness (probability
1.0) or when the oracle draw accepts a non-infinite worse candidate; on
acceptance move current there and update best only on strict improvement of
the best fitness; always cool the temperature and fire the early stop after
50 consecutive iterations without a new best. -/
def saAcceptStep (accept : ℕ → Bool) (cooling_rate : ℚ) (k : ℕ) (st : SAState)
    (bn : Option Solution) (bnf : Fitness) : Option SAState :=
  if decide (bnf < st.curFit) || (accept k && !(decide (bnf = ⊤))) then
    match bn with
    | none => none
    | some bsol =>
      some { cur := bsol,
             curFit := bnf,
             best := (if bnf < st.bestFit then bsol else st.best),
             bestFit := (if bnf < st.bestFit then bnf else st.bestFit),
             temp := st.temp * cooling_rate,
             noImprove := (if bnf < st.bestFit then 0 else st.noImprove + 1),
             stopped := decide ((if bnf < st.bestFit then 0 else st.noImprove + 1) ≥ 50) }
  else
    some { st with
           noImprove := st.noImprove + 1,
           temp := st.temp * cooling_rate,
           stopped := decide (st.noImprove + 1 ≥ 50) }

/-- One iteration of the simulated-annealing loop: stop when the
temperature has fallen below min_temp (line 147), otherwise score the three
neighbours and run the acceptance update. -/
def saStep (f : Solution → Option Fitness)
    (neighbor : ℕ → ℕ → Solution → Solution) (accept : ℕ → Bool)
    (cooling_rate min_temp : ℚ) (k : ℕ) (st : SAState) : Option SAState :=
  if st.stopped then some st
  else if st.temp < min_temp then some { st with stopped := true }
  else
    match saBestNeighbor f neighbor k st.cur with
    | none => none
    | some bn => saAcceptStep accept cooling_rate k st bn.1 bn.2

namespace SimulatedAnnealing

/-- SimulatedAnnealing.improve_solution from ga_simulated_annealing.py
lines 111-202: evaluate the initial solution, run max_iterations loop
iterations (early breaks folded into the stopped flag), and return the best
solution and fitness found. -/
def improve_solution (f : Solution → Option Fitness)
    (neighbor : ℕ → ℕ → Solution → Solution) (accept : ℕ → Bool)
    (sol0 : Solution) (max_iterations : ℕ)
    (initial_temp cooling_rate min_temp : ℚ) : Option (Solution × Fitness) :=
  match f sol0 with
  | none => none
  | some if0 =>
    ((List.range max_iterations).foldl
      (fun acc k => acc.bind (saStep f neighbor accept cooling_rate min_temp k))
      (some { cur := sol0, curFit := if0, best := sol0, bestFit := if0,
              temp := initial_temp, noImprove := 0, stopped := false })).map
      (fun st => (st.best, st.bestFit))

end SimulatedAnnealing

theorem saAcceptStep_bestFit_le (accept : ℕ → Bool) (cooling_rate : ℚ) (k : ℕ)
    (st : SAState) (bn : Option Solution) (bnf : Fitness) (st' : SAState)
    (h : saAcceptStep accept cooling_rate k st bn bnf = some st') :
    st'.bestFit ≤ st.bestFit := by
  unfold saAcceptStep at h
  split at h
  · split at h
    · exact Option.noConfusion h
    · rw [← Option.some.inj h]
      by_cases himp : bnf < st.bestFit
      · simpa [himp] using le_of_lt himp
      · simp [himp]
  · rw [← Option.some.inj h]

theorem saStep_bestFit_le (f : Solution → Option Fitness)
    (neighbor : ℕ → ℕ → Solution → Solution) (accept : ℕ → Bool)
    (cooling_rate min_temp : ℚ) (k : ℕ) (st st' : SAState)
    (h : saStep f neighbor accept cooling_rate min_temp k st = some st') :
    st'.bestFit ≤ st.bestFit := by
  unfold saStep at h
  split at h
  · rw [← Option.some.inj h]
  · split at h
    · rw [← Option.some.inj h]
    · split at h
      · exact Option.noConfusion h
      · exact saAcceptStep_bestFit_le _ _ _ _ _ _ _ h

/-- C6: whenever SimulatedAnnealing.improve_solution returns, the returned
best fitness is at most the fitness of the initial input solution: the best
pair starts at the input and is overwritten only by accepted states that
strictly beat the recorded best fitness.  Quantified over the neighbour and
acceptance oracles, hence over every random outcome, and over every fitness
map. -/
theorem sa_best_le_initial (f : Solution → Option Fitness)
    (neighbor : ℕ → ℕ → Solution → Solution) (accept : ℕ → Bool)
    (sol0 : Solution) (max_iterations : ℕ)
    (initial_temp cooling_rate min_temp : ℚ) (ifit : Fitness)
    (res : Solution × Fitness)
    (hf : f sol0 = some ifit)
    (hres : SimulatedAnnealing.improve_solution f neighbor accept sol0
      max_iterations initial_temp cooling_rate min_temp = some res) :
    res.2 ≤ ifit := by
  unfold SimulatedAnnealing.improve_solution at hres
  rw [hf] at hres
  dsimp only [] at hres
  rcases hrun : (List.range max_iterations).foldl
      (fun acc k => acc.bind (saStep f neighbor accept cooling_rate min_temp k))
      (some { cur := sol0, curFit := ifit, best := sol0, bestFit := ifit,
              temp := initial_temp, noImprove := 0, stopped := false }) with _ | st <;>
    rw [hrun] at hres
  · exact absurd hres (by simp)
  · have hr : res = (st.best, st.bestFit) := by simpa using hres.symm
    rw [hr]
    exact foldl_bind_invariant (saStep f neighbor accept cooling_rate min_temp)
      (fun s => s.bestFit ≤ ifit)
      (fun k s s' hs hle => le_trans (saStep_bestFit_le f neighbor accept
        cooling_rate min_temp k s s' hs) hle)
      (List.range max_iterations) _ st le_rfl hrun

/-- Witness for sa_best_le_initial: constant fitness 5, identity
neighbours, never-accepting oracle, one iteration. -/
theorem sa_best_le_initial_witness : ((5:ℚ) : Fitness) ≤ ((5:ℚ) : Fitness) :=
  sa_best_le_initial (fun _ => some ((5:ℚ) : Fitness)) (fun _ _ s => s)
    (fun _ => false) solSingle 1 1 1 0 ((5:ℚ) : Fitness)
    (solSingle, ((5:ℚ) : Fitness)) rfl (by with_unfolding_all decide)

/-! Island-model migration (ga_island.py, IslandModel._migrate_solutions,
lines 89-122).  The selection and replacement logic is generic in the
individuals: populations are lists over any type with decidable equality
and get_fitness is a key function into the rationals (per C8 the per-island
caches are observationally the shared calculate_fitness, which is
deterministic for a fixed problem).  Python sorted(key=...) is a stable
sort, and sorted(key=..., reverse=True) is stable with the comparison
reversed, modelled with mergeSort on the corresponding total Boolean
relations. -/

/-- Stable ascending sort by fitness key: sorted(pop, key=get_fitness). -/
def sortByFitness {α : Type} (f : α → ℚ) (l : List α) : List α :=
  l.mergeSort (fun a b => decide (f a ≤ f b))

/-- Stable descending (worst first) sort by fitness key:
sorted(pop, key=get_fitness, reverse=True). -/
def sortByFitnessDesc {α : Type} (f : α → ℚ) (l : List α) : List α :=
  l.mergeSort (fun a b => decide (f b ≤ f a))

/-- Replacement loop of lines 117-120: for the j-th migrant (while j is
still below the length of the worst-first sort of the destination), locate
the first index currently holding sorted_dest[j] with list.index and
overwrite it with a copy of the migrant.  The lockstep recursion on the two
lists realises the j < len(sorted_dest) guard; list.index on a value that
has disappeared would raise ValueError, which is unreachable (each
replacement consumes at most one occurrence of a value of sorted_dest), and
is modelled by the out-of-range set being a no-op. -/
def replaceWorst {α : Type} [BEq α] : List α → List α → List α → List α
  | [], _, destPop => destPop
  | _ :: _, [], destPop => destPop
  | mig :: migs, sd :: sds, destPop =>
    replaceWorst migs sds (destPop.set (destPop.findIdx (fun x => x == sd)) mig)

/-- One pass of the migration loop body for source island i (lines
94-120): read the source island's current population (live, not a
snapshot), skip if empty, select its migration_size lowest-fitness members,
and overwrite the worst members of the live destination population
(i+1) mod N in place. -/
def migrateStep {α : Type} [BEq α] (f : α → ℚ) (migration_size : ℕ)
    (pops : List (List α)) (i : ℕ) : List (List α) :=
  let src := pops.getD i []
  if src.isEmpty then pops
  else
    let migrants := (sortByFitness f src).take migration_size
    let dest := (i + 1) % pops.length
    let destPop := pops.getD dest []
    if destPop.isEmpty then pops
    else pops.set dest (replaceWorst migrants (sortByFitnessDesc f destPop) destPop)

/-- IslandModel._migrate_solutions: iterate the migration body over the
islands in index order, each step reading the populations as mutated by the
earlier steps of the same round. -/
def migrate_solutions {α : Type} [BEq α] (f : α → ℚ) (migration_size : ℕ)
    (pops : List (List α)) : List (List α) :=
  (List.range pops.length).foldl (migrateStep f migration_size) pops

/-- Modelled from the spec: the snapshot-semantics migration round the spec
describes in sections 4.9 and 5 (absent from the code, which works on live
populations): every island's migrants and every destination's worst-first
order are computed from the pre-round populations, then all replacement
writes are applied. -/
def migrate_solutions_snapshot {α : Type} [BEq α] (f : α → ℚ)
    (migration_size : ℕ) (pops : List (List α)) : List (List α) :=
  (List.range pops.length).foldl (fun acc i =>
    let src := pops.getD i []
    if src.isEmpty then acc
    else
      let migrants := (sortByFitness f src).take migration_size
      let dest := (i + 1) % pops.length
      let destPop := pops.getD dest []
      if destPop.isEmpty then acc
      else acc.set dest (replaceWorst migrants (sortByFitnessDesc f destPop) destPop)) pops

/-- Fitness table of the two-island counterexample: individual 0 has
fitness 100, individual 1 has fitness 5. -/
def exFitness : ℕ → ℚ := fun n => if n = 0 then 100 else 5

/-- Identity fitness table for the three-island round-propagation run. -/
def idFitness : ℕ → ℚ := fun n => (n : ℚ)

theorem replaceWorst_length {α : Type} [BEq α] :
    ∀ (migs sds destPop : List α), (replaceWorst migs sds destPop).length = destPop.length := by
  intro migs
  induction migs with
  | nil => intro sds destPop; rfl
  | cons mig migs ih =>
    intro sds destPop
    rcases sds with _ | ⟨sd, sds⟩
    · rfl
    · unfold replaceWorst
      rw [ih sds _]
      exact List.length_set destPop _ mig

theorem set_self_of_getElem? {β : Type} (l : List β) (i : ℕ) (a : β)
    (h : l[i]? = some a) : l.set i a = l := by
  apply List.ext_getElem?
  intro j
  rw [List.getElem?_set]
  by_cases hij : i = j
  · subst hij
    rw [if_pos rfl, if_pos (List.getElem?_eq_some_iff.mp h).1, h]
  · rw [if_neg hij]

theorem migrateStep_sizes {α : Type} [BEq α] (f : α → ℚ) (m : ℕ)
    (pops : List (List α)) (i : ℕ) :
    (migrateStep f m pops i).map List.length = pops.map List.length := by
  unfold migrateStep
  by_cases hsrc : (pops.getD i []).isEmpty
  · rw [if_pos hsrc]
  · rw [if_neg hsrc]
    by_cases hdest : (pops.getD ((i + 1) % pops.length) []).isEmpty
    · rw [if_pos hdest]
    · rw [if_neg hdest]
      have hpos : 0 < pops.length := by
        rcases pops with _ | ⟨p, ps⟩
        · exact absurd rfl hsrc
        · exact Nat.succ_pos _
      have hdlt : (i + 1) % pops.length < pops.length := Nat.mod_lt _ hpos
      rw [List.map_set]
      apply set_self_of_getElem?
      rw [List.getElem?_map, List.getElem?_eq_getElem hdlt]
      simp only [Option.map_some']
      rw [replaceWorst_length, List.getD_eq_getElem pops [] hdlt]

/-- C5, amended: after a migration round every island's population size is
unchanged (replacement happens in place, nothing is appended or removed),
for every fitness table, migration size and starting populations. -/
theorem migrate_preserves_sizes {α : Type} [BEq α] (f : α → ℚ) (m : ℕ)
    (pops : List (List α)) :
    (migrate_solutions f m pops).map List.length = pops.map List.length := by
  unfold migrate_solutions
  generalize List.range pops.length = l
  induction l generalizing pops with
  | nil => rfl
  | cons i rest ih =>
    simp only [List.foldl_cons]
    rw [ih (migrateStep f m pops i), migrateStep_sizes]

/-- C5, counterexample: two islands with populations that are single
individuals, the source individual (fitness 100) worse than the destination
individual (fitness 5), migration size 1.  The round overwrites the
destination's only member with a copy of the worse source individual, so
the destination ends with zero members of fitness at most 5 although
min(migration_size, source size) = 1 is claimed: migrants are copied
unconditionally and may be worse than the individuals they replace. -/
theorem migrate_fitness_cex :
    migrate_solutions exFitness 1 [[0], [1]] = [[0], [0]] ∧
    exFitness 0 = 100 ∧ exFitness 1 = 5 ∧ ¬ exFitness 0 ≤ exFitness 1 := by
  refine ⟨by with_unfolding_all decide, by with_unfolding_all decide,
    by with_unfolding_all decide, by with_unfolding_all decide⟩

/-- C4, amended: the migration loop reads each source island's population
live, after the writes of the earlier ring steps of the same round, so an
individual written into an island during a round is selected out of it
later in the same round and can propagate through the whole ring: with
three islands holding individuals 0, 5, 9 (fitness = identity), one round
leaves 0 everywhere, although island 1's and island 2's pre-round
populations do not contain 0. -/
theorem migrate_live_propagation :
    migrate_solutions idFitness 1 [[0], [5], [9]] = [[0], [0], [0]] ∧
    (0 : ℕ) ∉ ([5] : List ℕ) ∧ (0 : ℕ) ∉ ([9] : List ℕ) := by
  refine ⟨by with_unfolding_all decide, by decide, by decide⟩

/-- C4, counterexample: with two singleton islands (individual 0 of fitness
0 on island 0, individual 1 of fitness 1 on island 1) the code's round
first writes 0 into island 1 and then selects that very individual as
island 1's outgoing migrant, ending with 0 on both islands; under the
claimed snapshot semantics island 1's migrant would be 1 (its only
pre-round member, as the final populations of the snapshot round show), and
the migrant 0 that the code selects out of island 1 is not in island 1's
pre-round population. -/
theorem migrate_snapshot_cex :
    migrate_solutions idFitness 1 [[0], [1]] = [[0], [0]] ∧
    migrate_solutions_snapshot idFitness 1 [[0], [1]] = [[1], [0]] ∧
    (0 : ℕ) ∉ ([1] : List ℕ) ∧
    migrate_solutions idFitness 1 [[0], [1]]
      ≠ migrate_solutions_snapshot idFitness 1 [[0], [1]] := by
  refine ⟨by with_unfolding_all decide, by with_unfolding_all decide,
    by decide, by with_unfolding_all decide⟩

/-! Fitness cache (ga_main.py, GeneticAlgorithm.get_fitness, lines 53-60).
The cache key tuple(tuple(x) for x in solution) is exactly the content of
the solution, which here is already a value, so the cache is an association
list keyed by the solution itself; a Python dict stores at most one entry
per key and appends new keys at the end. -/

/-- The engine's _fitness_cache. -/
abbrev Cache : Type := List (Solution × Fitness)

/-- Every entry of the cache holds the value calculate_fitness returns for
its key.  The empty cache (fresh engine, or after clear_fitness_cache) has
it trivially, and get_fitness writes only values just computed by
calculate_fitness, so every cache the engine ever holds satisfies it. -/
def cacheValid (P : Problem) (c : Cache) : Prop :=
  ∀ p ∈ c, calculate_fitness P p.1 = some p.2

/-- GeneticAlgorithm.get_fitness: return the cached value when the key is
present, otherwise evaluate calculate_fitness, store and return it.  The
returned pair is the fitness and the cache after the call; a none result
models the exception of calculate_fitness propagating (in which case the
dict write does not happen). -/
def get_fitness (P : Problem) (c : Cache) (sol : Solution) :
    Option (Fitness × Cache) :=
  match c.lookup sol with
  | some v => some (v, c)
  | none =>
    match calculate_fitness P sol with
    | none => none
    | some v => some (v, c ++ [(sol, v)])

theorem mem_of_lookup_eq_some {κ ν : Type} [BEq κ] [LawfulBEq κ]
    {l : List (κ × ν)} {a : κ} {b : ν} (h : l.lookup a = some b) : (a, b) ∈ l := by
  induction l with
  | nil => exact Option.noConfusion h
  | cons p rest ih =>
    rcases p with ⟨k, v⟩
    unfold List.lookup at h
    rcases hk : a == k with _ | _
    · rw [hk] at h
      exact List.mem_cons_of_mem _ (ih h)
    · rw [hk] at h
      have hka : a = k := eq_of_beq hk
      have hv : v = b := Option.some.inj h
      subst hka
      subst hv
      exact List.mem_cons_self _ _

/-- C8: for every cache state the engine can hold (characterised by
cacheValid, which the empty cache has and which get_fitness preserves),
get_fitness returns exactly the value calculate_fitness returns for the
solution — including propagating its exception as an exception — and
leaves the cache valid: the cache is an optimisation that never changes a
returned fitness value. -/
theorem get_fitness_cache_transparent (P : Problem) (c : Cache) (sol : Solution)
    (hvalid : cacheValid P c) :
    (get_fitness P c sol).map Prod.fst = calculate_fitness P sol ∧
    ∀ r ∈ get_fitness P c sol, cacheValid P r.2 := by
  unfold get_fitness
  rcases hl : c.lookup sol with _ | v
  · rcases hc : calculate_fitness P sol with _ | w
    · exact ⟨rfl, by intro r hr; exact absurd hr (by simp)⟩
    · constructor
      · rfl
      · intro r hr
        have hr' : r = (w, c ++ [(sol, w)]) := by have := hr; simp at this; exact this.symm
        rw [hr']
        intro p hp
        rcases List.mem_append.mp hp with hp1 | hp2
        · exact hvalid p hp1
        · have : p = (sol, w) := by simpa using hp2
          rw [this]
          exact hc
  · have hmem := mem_of_lookup_eq_some hl
    have hv : calculate_fitness P sol = some v := hvalid (sol, v) hmem
    constructor
    · rw [hv]
      rfl
    · intro r hr
      have hr' : r = (v, c) := by have := hr; simp at this; exact this.symm
      rw [hr']
      exact hvalid

/-- Witness for get_fitness_cache_transparent: the empty cache (trivially
valid) with problem P1 and the single-assignment solution. -/
theorem get_fitness_cache_transparent_witness :
    (get_fitness P1 [] solSingle).map Prod.fst = calculate_fitness P1 solSingle ∧
    ∀ r ∈ get_fitness P1 [] solSingle, cacheValid P1 r.2 :=
  get_fitness_cache_transparent P1 [] solSingle
    (by intro p hp; exact absurd hp (List.not_mem_nil p))

end GASched
